import Mathlib

/-!
Verification development for the `waters_to_imzml.py` conversion pipeline.

The Python source is shallowly embedded: pure fragments become Lean
functions, the chunked extraction / writing loops become explicit
list-processing functions threading their inputs, Python exceptions become
`Option`/`Except`/`Bool` outcomes, Python machine floats are modelled as
exact rationals (`ℚ`), and byte strings are modelled through `String.data`
(their character sequences).
-/

/-! ### Python `range` and the pixel grid -/

/-- Model of Python `range(start, stop, step)` for a positive `step` and
non-negative bounds: the arithmetic progression `start, start+step, …`
strictly below `stop`.  (`range` with `step = 0` raises `ValueError`; callers
model that case separately.) -/
def range_step (start stop step : Nat) : List Nat :=
  List.range' start ((stop - start + step - 1) / step) step

/-- `self.coords = [(i+1, j+1, 1) for i in range(self.x) for j in range(self.y)]`
from `mzmlb_conv.__init__` (src line 93): the 1-indexed pixel-coordinate list,
`z` fixed at `1`, outer loop over `x`, inner loop over `y`. -/
def coords_list (x y : Nat) : List (Nat × Nat × Nat) :=
  (List.range x).flatMap (fun i => (List.range y).map (fun j => (i + 1, j + 1, 1)))

/-- `self.chunk_size = min(1000, total_pixels // 4)` from `mzmlb_conv.__init__`
(src line 89). -/
def chunk_size (total_pixels : Nat) : Nat :=
  min 1000 (total_pixels / 4)

/-- `chunk_indices = [(i, min(i + self.chunk_size, total_pixels)) for i in
range(0, total_pixels, self.chunk_size)]` from
`mzmlb_conv._create_profile_spectra` (src lines 111-113).  When the chunk size
is `0`, Python's `range` raises `ValueError`, modelled as `none`. -/
def chunk_indices (total_pixels : Nat) : Option (List (Nat × Nat)) :=
  if chunk_size total_pixels = 0 then none
  else
    some ((range_step 0 total_pixels (chunk_size total_pixels)).map
      (fun i => (i, min (i + chunk_size total_pixels) total_pixels)))

/-! ### Chunked spectrum processor -/

/-- One attempted read of the spectrum at flattened pixel index `j`
(`ChunkedSpectrumProcessor.process_chunk`, src lines 59-67): `file.get_by_index(j)`
followed by the `float32` downcasts is abstracted as `read j : Option α`
(`none` models a raised exception), and `coords[j]` is the list lookup, whose
`IndexError` is likewise caught by the enclosing `except`.  A successful read
appends `[mz_array, intensity_array, coords[j]]`, modelled as the pair of the
read payload and the coordinate. -/
def read_entry (read : Nat → Option α) (coords : List (Nat × Nat × Nat)) (j : Nat) :
    Option (α × (Nat × Nat × Nat)) :=
  (read j).bind (fun a => (coords[j]?).map (fun c => (a, c)))

/-- `ChunkedSpectrumProcessor.process_chunk` (src lines 43-76): the outer loop
`for i in range(start, end, batch_size)` with `batch_size = 5`, each iteration
reading the sub-batch `range(i, min(i + 5, end))`, skipping indices whose read
raised, and extending the accumulated `chunk_spectra`. -/
def process_chunk (read : Nat → Option α) (coords : List (Nat × Nat × Nat))
    (start stop : Nat) : List (α × (Nat × Nat × Nat)) :=
  (range_step start stop 5).flatMap
    (fun i => (List.range' i (min (i + 5) stop - i)).filterMap (read_entry read coords))

/-! ### Metadata parser (`get_coords`, src lines 187-215)

Lines of the `.inf` file are modelled as `String`s; Python string operations
are modelled on their character sequences (`String.data`).  Numeric values are
modelled as exact rationals; Python's `float` literal conversion is a builtin
external to this repository and is abstracted as a `parse_num` parameter
(`none` models a raised `ValueError`). -/

/-- Python's built-in `round` on an exact value: round half to even. -/
def py_round (q : ℚ) : ℤ :=
  if q - ⌊q⌋ < 1 / 2 then ⌊q⌋
  else if 1 / 2 < q - ⌊q⌋ then ⌊q⌋ + 1
  else if ⌊q⌋ % 2 = 0 then ⌊q⌋ else ⌊q⌋ + 1

/-- Python `line.split('\t')` on the character sequence: splits at every tab,
keeping empty fields, with `[""]` for the empty string. -/
def split_tab : List Char → List (List Char)
  | [] => [[]]
  | c :: rest =>
    let r := split_tab rest
    if c = '\t' then [] :: r
    else
      match r with
      | [] => [[c]]
      | f :: fs => (c :: f) :: fs

/-- `line.split('\t')`, as strings. -/
def tab_fields (line : String) : List String :=
  (split_tab line.data).map (fun cs => String.mk cs)

/-- `line.startswith(key)` (the four keys contain no tab). -/
def starts_with (line key : String) : Bool :=
  key.data.isPrefixOf line.data

/-- `float(line.split('\t')[5])`: the 6th tab-delimited field converted by
Python's `float`; `none` models a raised `IndexError` (fewer than 6 fields) or
`ValueError` (non-numeric field). -/
def field6 (parse_num : String → Option ℚ) (line : String) : Option ℚ :=
  ((tab_fields line)[5]?).bind parse_num

/-- The ways `get_coords` can raise: a conversion failure on a matching line
(`ValueError`/`IndexError`), a variable never assigned (`NameError`, the
spec's "missing-field error"), or `ZeroDivisionError` from a zero step. -/
inductive CoordErr : Type
  | parse_error
  | missing_field
  | div_by_zero
deriving DecidableEq

/-- The four local variables of `get_coords`, each unset (`none`) until a
matching line assigns it. -/
structure CoordState : Type where
  x : Option ℚ
  xstep : Option ℚ
  y : Option ℚ
  ystep : Option ℚ
deriving DecidableEq

/-- One `if line.startswith(key): var = float(line.split('\t')[5])` statement
(src lines 204-211). -/
def upd_key (parse_num : String → Option ℚ) (key : String) (line : String)
    (o : Option ℚ) : Except CoordErr (Option ℚ) :=
  if starts_with line key then
    match field6 parse_num line with
    | some v => .ok (some v)
    | none => .error .parse_error
  else .ok o

/-- The body of the `for line in lines` loop of `get_coords`: the four
independent `if` statements executed in order, the first raise aborting. -/
def proc_line (parse_num : String → Option ℚ) (st : CoordState) (line : String) :
    Except CoordErr CoordState :=
  match upd_key parse_num "DesiXLength" line st.x with
  | .error e => .error e
  | .ok xv =>
    match upd_key parse_num "DesiXStep" line st.xstep with
    | .error e => .error e
    | .ok xsv =>
      match upd_key parse_num "DesiYLength" line st.y with
      | .error e => .error e
      | .ok yv =>
        match upd_key parse_num "DesiYStep" line st.ystep with
        | .error e => .error e
        | .ok ysv => .ok ⟨xv, xsv, yv, ysv⟩

/-- The `for line in lines` loop, propagating the first raised exception. -/
def run_lines (parse_num : String → Option ℚ) :
    CoordState → List String → Except CoordErr CoordState
  | st, [] => .ok st
  | st, line :: rest =>
    match proc_line parse_num st line with
    | .error e => .error e
    | .ok st' => run_lines parse_num st' rest

/-- `xcoord, ycoord = round(x / xstep), round(y / ystep)` (src line 213), with
Python's left-to-right evaluation order: `NameError` for an unset variable and
`ZeroDivisionError` for a zero step, the x-axis expression evaluated first. -/
def compute_coords (st : CoordState) : Except CoordErr (ℤ × ℤ) :=
  match st.x with
  | none => .error .missing_field
  | some xv =>
    match st.xstep with
    | none => .error .missing_field
    | some xsv =>
      if xsv = 0 then .error .div_by_zero
      else
        match st.y with
        | none => .error .missing_field
        | some yv =>
          match st.ystep with
          | none => .error .missing_field
          | some ysv =>
            if ysv = 0 then .error .div_by_zero
            else .ok (py_round (xv / xsv), py_round (yv / ysv))

/-- `get_coords` (src lines 187-215) on the decoded lines of the `.inf`
file. -/
def get_coords (parse_num : String → Option ℚ) (lines : List String) :
    Except CoordErr (ℤ × ℤ) :=
  match run_lines parse_num ⟨none, none, none, none⟩ lines with
  | .error e => .error e
  | .ok st => compute_coords st

/-- A line matching one of the four recognised keys. -/
def is_key_line (line : String) : Bool :=
  starts_with line "DesiXLength" || starts_with line "DesiXStep" ||
  starts_with line "DesiYLength" || starts_with line "DesiYStep"

/-- The last line of the file starting with `key` (later matches overwrite
earlier ones in the loop). -/
def last_key_line (key : String) (lines : List String) : Option String :=
  (lines.filter (fun l => starts_with l key)).getLast?

/-- The value the loop leaves in the variable for `key`: the parsed 6th field
of the last matching line. -/
def key_val (parse_num : String → Option ℚ) (key : String) (lines : List String) :
    Option ℚ :=
  (last_key_line key lines).bind (field6 parse_num)

/-- Pure effect of one line on the variable for `key`, assuming no raise. -/
def upd_pure (parse_num : String → Option ℚ) (key : String) (line : String)
    (o : Option ℚ) : Option ℚ :=
  if starts_with line key then field6 parse_num line else o

/-- Pure effect of a whole line list on the variable for `key`. -/
def upd_all (parse_num : String → Option ℚ) (key : String) (lines : List String)
    (o : Option ℚ) : Option ℚ :=
  match last_key_line key lines with
  | some l => field6 parse_num l
  | none => o

/-- A concrete numeric-literal conversion (stand-in for Python `float` on the
few literals used in concrete test files). -/
def demo_parse : String → Option ℚ := fun s =>
  if s = "10" then some 10
  else if s = "2" then some 2
  else if s = "3" then some 3
  else if s = "1" then some 1
  else if s = "0" then some 0
  else none

/-- A well-formed metadata file: lengths 10/10, steps 2/3. -/
def demo_lines : List String :=
  ["DesiXLength\tDESI\tX\tlen\tf\t10",
   "DesiXStep\tDESI\tX\tstep\tf\t2",
   "DesiYLength\tDESI\tY\tlen\tf\t10",
   "DesiYStep\tDESI\tY\tstep\tf\t3"]

/-- A metadata file whose `DesiXStep` value is the numeric literal `0`. -/
def demo_lines_zero_step : List String :=
  ["DesiXLength\tDESI\tX\tlen\tf\t10",
   "DesiXStep\tDESI\tX\tstep\tf\t0",
   "DesiYLength\tDESI\tY\tlen\tf\t10",
   "DesiYStep\tDESI\tY\tstep\tf\t2"]

/-- A metadata file with ratio `1/3` on the x axis. -/
def demo_lines_small_ratio : List String :=
  ["DesiXLength\tDESI\tX\tlen\tf\t1",
   "DesiXStep\tDESI\tX\tstep\tf\t3",
   "DesiYLength\tDESI\tY\tlen\tf\t10",
   "DesiYStep\tDESI\tY\tstep\tf\t2"]

/-- A metadata file with no `DesiXLength` line. -/
def demo_lines_missing : List String :=
  ["DesiXStep\tDESI\tX\tstep\tf\t2",
   "DesiYLength\tDESI\tY\tlen\tf\t10",
   "DesiYStep\tDESI\tY\tstep\tf\t2"]

/-- A metadata file with no `DesiYStep` line whose `DesiXStep` value is the
numeric literal `0`. -/
def demo_lines_missing_ystep : List String :=
  ["DesiXLength\tDESI\tX\tlen\tf\t10",
   "DesiXStep\tDESI\tX\tstep\tf\t0",
   "DesiYLength\tDESI\tY\tlen\tf\t10"]

deriving instance DecidableEq for Except

/-! ### Conversion orchestrator (`mzmlb_conv`)

The extraction and writing loops are embedded with the `MemoryMonitor`
interactions made explicit.  `mem`-type oracles give the successive results of
`MemoryMonitor.check_memory()`; `batch_fail` / `write_fail` oracles inject a
raise from the joblib `Parallel` call of a chunk batch resp. from the imzML
writer on a write batch (both are logged and re-raised in the source).
`gc.collect()` frees only unreachable memory, so it is modelled as the
identity on the live data. -/

/-- `MemoryMonitor.force_garbage_collection` (src lines 27-36): best-effort
reclamation of unreachable memory; live data is unchanged. -/
def force_garbage_collection {σ : Type} (live : σ) : σ := live

/-- The slicing loop `for i in range(0, len(lst), n)` over `lst[i:i+n]`, used
with `n = 2` for chunk batches (src line 119) and `n = 100` for write batches
(src line 151). -/
def batch_list {σ : Type} (n : Nat) (l : List σ) : List (List σ) :=
  (range_step 0 l.length n).map (fun i => (l.drop i).take n)

/-- `process_chunk` with its per-sub-batch memory check explicit (src lines
52-55): `mem i` is the `check_memory()` result before the sub-batch starting
at `i`; when it is `false`, a warning is logged and garbage collection is
forced, and the sub-batch is then processed identically. -/
def process_chunk_mem {α : Type} (mem : Nat → Bool) (read : Nat → Option α)
    (coords : List (Nat × Nat × Nat)) (start stop : Nat) :
    List (α × (Nat × Nat × Nat)) :=
  (range_step start stop 5).flatMap (fun i =>
    if mem i then
      (List.range' i (min (i + 5) stop - i)).filterMap (read_entry read coords)
    else
      force_garbage_collection
        ((List.range' i (min (i + 5) stop - i)).filterMap (read_entry read coords)))

/-- The batch loop of `_create_profile_spectra` (src lines 117-137): chunk
batches of size 2, a memory check (with forced reclamation when low) before
each batch, the parallel map over the batch's chunks, and extension of
`self.spectra` with the results in order.  `batch_fail bi = true` makes the
`Parallel` call for batch `bi` raise, which the enclosing `except` logs and
re-raises; the returned flag records whether the loop completed. -/
def extract_loop {α : Type} (mem mem_w : Nat → Bool) (batch_fail : Nat → Bool)
    (read : Nat → Option α) (coords : List (Nat × Nat × Nat)) :
    List (List (Nat × Nat)) → Nat → List (α × (Nat × Nat × Nat)) →
      List (α × (Nat × Nat × Nat)) × Bool
  | [], _, spectra => (spectra, true)
  | b :: rest, bi, spectra =>
    let spectra1 :=
      if mem bi then spectra
      else force_garbage_collection spectra
    if batch_fail bi then (spectra1, false)
    else
      let results := b.map (fun c => process_chunk_mem mem_w read coords c.1 c.2)
      extract_loop mem mem_w batch_fail read coords rest (bi + 1)
        (spectra1 ++ results.flatten)

/-- The write loop of `_convert_to_imzml` (src lines 148-162): spectra written
in batches of 100, a memory check (with forced reclamation when low) before
each batch, each spectrum of the batch passed to `addSpectrum` in order.
`write_fail bi = true` makes batch `bi` raise (logged and re-raised). -/
def convert_loop {α : Type} (mem write_fail : Nat → Bool) :
    List (List (α × (Nat × Nat × Nat))) → Nat → List (α × (Nat × Nat × Nat)) →
      List (α × (Nat × Nat × Nat)) × Bool
  | [], _, written => (written, true)
  | b :: rest, bi, written =>
    let written1 :=
      if mem bi then written
      else force_garbage_collection written
    if write_fail bi then (written1, false)
    else convert_loop mem write_fail rest (bi + 1) (written1 ++ b)

/-- Observable outcome of one `mzmlb_conv(...)` construction: the spectra
passed to the imzML writer (in order), the content of `self.spectra` when the
constructor returns or its exception escapes, and whether it completed. -/
structure RunResult (α : Type) : Type where
  written : List (α × (Nat × Nat × Nat))
  spectra_after : List (α × (Nat × Nat × Nat))
  ok : Bool

/-- `mzmlb_conv.__init__` (src lines 79-98) end to end: compute the chunk
size and coordinate grid, build the chunk ranges (raising when the chunk size
is 0), extract spectra chunk-batch by chunk-batch, then stream them to the
writer; `_convert_to_imzml`'s `finally` clause clears `self.spectra`, but an
extraction failure propagates out of `__init__` (whose own `finally` only
calls `gc.collect()`) before any clearing. -/
def mzmlb_conv {α : Type} (read : Nat → Option α) (x y : Nat)
    (mem mem_w : Nat → Bool) (batch_fail write_fail : Nat → Bool) :
    RunResult α :=
  match chunk_indices (x * y) with
  | none => ⟨[], [], false⟩
  | some chunks =>
    let r := extract_loop mem mem_w batch_fail read (coords_list x y)
      (batch_list 2 chunks) 0 []
    if r.2 then
      let w := convert_loop mem write_fail (batch_list 100 r.1) 0 []
      ⟨w.1, [], w.2⟩
    else ⟨[], r.1, false⟩

/-! ### Batch driver file resolution (`run_conversion`) -/

/-- `str(list(pathlib.Path(folder).glob(pattern))[0])` (src lines 290 and
297): the glob's candidate matches resolved by indexing `[0]`; an empty list
raises `IndexError` (`none`), and two or more candidates silently resolve to
the first. -/
def first_match (candidates : List String) : Option String :=
  candidates.head?

/-! ### Basic facts about `range_step` -/

theorem range_step_eq_nil {start stop step : Nat} (h : stop ≤ start) :
    range_step start stop step = [] := by
  have : stop - start = 0 := Nat.sub_eq_zero_of_le h
  unfold range_step
  rw [this]
  rcases Nat.eq_zero_or_pos step with hs | hs
  · subst hs; rfl
  · have : (0 + step - 1) / step = 0 := Nat.div_eq_of_lt (by omega)
    rw [this]
    rfl

theorem range_step_cons {start stop step : Nat} (hstep : 0 < step) (h : start < stop) :
    range_step start stop step = start :: range_step (start + step) stop step := by
  unfold range_step
  have hd : 0 < stop - start := by omega
  have h1 : stop - start + step - 1 = (stop - start - 1) + step := by omega
  have h2 : (stop - start + step - 1) / step = (stop - start - 1) / step + 1 := by
    rw [h1, Nat.add_div_right _ hstep]
  have h3 : (stop - (start + step) + step - 1) / step = (stop - start - 1) / step := by
    rcases le_or_lt (start + step) stop with hle | hlt
    · congr 1
      omega
    · have e1 : stop - (start + step) = 0 := by omega
      rw [e1]
      rw [Nat.div_eq_of_lt (by omega), Nat.div_eq_of_lt (by omega)]
  rw [h2, h3, List.range'_succ]

/-- Joining the half-open chunk ranges produced by stepping through
`[start, stop)` with stride `cs` yields exactly the indices of `[start, stop)`,
in order. -/
theorem range_step_cover {cs : Nat} (hcs : 0 < cs) (stop start : Nat) :
    ((range_step start stop cs).map
      (fun i => List.range' i (min (i + cs) stop - i))).flatten
    = List.range' start (stop - start) := by
  have main : ∀ n start, stop - start ≤ n →
      ((range_step start stop cs).map
        (fun i => List.range' i (min (i + cs) stop - i))).flatten
      = List.range' start (stop - start) := by
    intro n
    induction n with
    | zero =>
      intro start h
      have hle : stop ≤ start := by omega
      rw [range_step_eq_nil hle]
      have : stop - start = 0 := by omega
      rw [this]
      rfl
    | succ n ih =>
      intro start h
      by_cases hlt : start < stop
      · rw [range_step_cons hcs hlt]
        simp only [List.map_cons, List.flatten_cons]
        rw [ih (start + cs) (by omega)]
        rcases le_or_lt stop (start + cs) with hle | hlt2
        · have e1 : min (start + cs) stop = stop := by omega
          have e2 : stop - (start + cs) = 0 := by omega
          rw [e1, e2]
          simp
        · have e1 : min (start + cs) stop = start + cs := by omega
          have e3 : start + cs - start = cs := by omega
          rw [e1, e3]
          have happ := List.range'_append start cs (stop - (start + cs)) 1
          rw [one_mul] at happ
          rw [happ]
          congr 1
          omega
      · rw [range_step_eq_nil (by omega)]
        have : stop - start = 0 := by omega
        rw [this]
        rfl
  exact main (stop - start) start le_rfl

/-! ### Facts about the coordinate list -/

theorem coords_list_length (x y : Nat) : (coords_list x y).length = x * y := by
  unfold coords_list
  induction x with
  | zero => simp
  | succ n ih =>
    rw [List.range_succ]
    simp [List.flatMap_append, ih, Nat.succ_mul]

theorem coords_list_nodup (x y : Nat) : (coords_list x y).Nodup := by
  unfold coords_list
  rw [List.nodup_flatMap]
  constructor
  · intro i _
    refine List.Nodup.map ?_ (List.nodup_range y)
    intro a b hab
    simp only [Prod.mk.injEq] at hab
    omega
  · have hp : List.Pairwise (· < ·) (List.range x) := List.pairwise_lt_range x
    refine hp.imp ?_
    intro a b hab
    simp only [Function.onFun]
    intro z hza hzb
    simp only [List.mem_map, List.mem_range] at hza hzb
    obtain ⟨j1, _, h1⟩ := hza
    obtain ⟨j2, _, h2⟩ := hzb
    rw [← h2] at h1
    simp only [Prod.mk.injEq] at h1
    omega

theorem coords_list_mem (x y a b c : Nat) :
    (a, b, c) ∈ coords_list x y ↔ 1 ≤ a ∧ a ≤ x ∧ 1 ≤ b ∧ b ≤ y ∧ c = 1 := by
  simp only [coords_list, List.mem_flatMap, List.mem_map, List.mem_range, Prod.mk.injEq]
  constructor
  · rintro ⟨i, hi, j, hj, h1, h2, h3⟩
    omega
  · rintro ⟨h1, h2, h3, h4, h5⟩
    exact ⟨a - 1, by omega, b - 1, by omega, by omega, by omega, by omega⟩

theorem coords_list_eq_cross (x y : Nat) :
    coords_list x y
    = (List.range' 1 x).flatMap (fun a => (List.range' 1 y).map (fun b => (a, b, 1))) := by
  simp only [List.range'_eq_map_range, List.flatMap_map, List.map_map, Function.comp_def]
  simp only [Nat.add_comm 1]
  rfl

/-! ### Characterization of `process_chunk` -/

theorem flatten_map_filterMap {α β γ : Type} (g : α → Option β) (f : γ → List α)
    (l : List γ) :
    (l.map (fun x => (f x).filterMap g)).flatten = ((l.map f).flatten).filterMap g := by
  induction l with
  | nil => simp
  | cons a t ih => simp [List.filterMap_append, ih]

/-- The sub-batching of `process_chunk` (inner loops of 5) is equivalent to a
single pass over the whole chunk range. -/
theorem process_chunk_eq_filterMap {α : Type} (read : Nat → Option α)
    (coords : List (Nat × Nat × Nat)) (start stop : Nat) :
    process_chunk read coords start stop
      = (List.range' start (stop - start)).filterMap (read_entry read coords) := by
  unfold process_chunk
  rw [List.flatMap_def, flatten_map_filterMap]
  rw [range_step_cover (by norm_num) stop start]

theorem filterMap_ite_eq_filter_map {β : Type} (F : Nat → Bool) (g : Nat → β)
    (l : List Nat) :
    l.filterMap (fun j => if F j then none else some (g j))
      = (l.filter (fun j => !F j)).map g := by
  induction l with
  | nil => simp
  | cons a t ih =>
    by_cases h : F a <;> simp [h, ih]

theorem length_filter_not (F : Nat → Bool) (l : List Nat) :
    (l.filter (fun j => !F j)).length = l.length - (l.filter F).length := by
  induction l with
  | nil => simp
  | cons a t ih =>
    have hle := List.length_filter_le F t
    by_cases h : F a <;> simp [h, ih] <;> omega

/-! ### Facts about chunk partitioning -/

theorem chunk_size_pos {t : Nat} (ht : 4 ≤ t) : 0 < chunk_size t := by
  have h4 : 1 ≤ t / 4 := (Nat.one_le_div_iff (by norm_num)).mpr ht
  unfold chunk_size
  omega

/-! ### Claim C1: the pixel-coordinate grid -/

/-- **C1**: for every `width > 0` and `height > 0`, the pixel-coordinate list
built by `mzmlb_conv.__init__` has exactly `width * height` entries, each a
unique triple `(x, y, 1)` with `x ∈ [1, width]` and `y ∈ [1, height]`, and it
is exactly the row-major cross product of `[1..width] × [1..height]`. -/
theorem c1_coords_full_grid (w h : Nat) (hw : 0 < w) (hh : 0 < h) :
    (coords_list w h).length = w * h ∧
    (coords_list w h).Nodup ∧
    (∀ a b c : Nat, (a, b, c) ∈ coords_list w h ↔
      1 ≤ a ∧ a ≤ w ∧ 1 ≤ b ∧ b ≤ h ∧ c = 1) ∧
    coords_list w h
      = (List.range' 1 w).flatMap (fun a => (List.range' 1 h).map (fun b => (a, b, 1))) :=
  ⟨coords_list_length w h, coords_list_nodup w h,
    fun a b c => coords_list_mem w h a b c, coords_list_eq_cross w h⟩

/-- Witness for C1 at the concrete grid `2 × 3`. -/
theorem c1_coords_full_grid_witness :
    (coords_list 2 3).length = 2 * 3 ∧
    (coords_list 2 3).Nodup ∧
    (∀ a b c : Nat, (a, b, c) ∈ coords_list 2 3 ↔
      1 ≤ a ∧ a ≤ 2 ∧ 1 ≤ b ∧ b ≤ 3 ∧ c = 1) ∧
    coords_list 2 3
      = (List.range' 1 2).flatMap (fun a => (List.range' 1 3).map (fun b => (a, b, 1))) :=
  c1_coords_full_grid 2 3 (by decide) (by decide)

/-! ### Claim C2: chunk partitioning -/

/-- **C2 counterexample**: the claim quantifies over every `totalPixels > 0`,
but at `totalPixels = 1` the chunk size is `min(1000, 1 // 4) = 0`, so
`range(0, 1, 0)` raises `ValueError` and no covering chunk list is produced at
all. -/
theorem c2_counterexample :
    ¬ ∃ l, chunk_indices 1 = some l ∧
      ((l.map (fun p => List.range' p.1 (p.2 - p.1))).flatten = List.range 1) := by
  have h0 : chunk_indices 1 = none := by decide
  rintro ⟨l, hl, -⟩
  rw [h0] at hl
  exact Option.noConfusion hl

/-- **C2 (amended)**: for every `totalPixels ≥ 4` (so that the chunk size
`min(1000, totalPixels // 4)` is positive), the ChunkRanges built by
`mzmlb_conv._create_profile_spectra` cover `[0, totalPixels)` exactly once, in
order, with no gaps and no overlaps, and every chunk except possibly the last
(the one ending at `totalPixels`) has exactly the chunk size. -/
theorem c2_chunk_partition_covers (t : Nat) (ht : 4 ≤ t) :
    ∃ l, chunk_indices t = some l ∧
      ((l.map (fun p => List.range' p.1 (p.2 - p.1))).flatten = List.range t) ∧
      (∀ p ∈ l, p.2 - p.1 = chunk_size t ∨ p.2 = t) := by
  have hcs : 0 < chunk_size t := chunk_size_pos ht
  refine ⟨(range_step 0 t (chunk_size t)).map
      (fun i => (i, min (i + chunk_size t) t)), ?_, ?_, ?_⟩
  · unfold chunk_indices
    rw [if_neg (by omega)]
  · rw [List.map_map]
    have hcov := range_step_cover hcs t 0
    simpa [Function.comp_def, List.range_eq_range'] using hcov
  · intro p hp
    simp only [List.mem_map] at hp
    obtain ⟨i, hi, rfl⟩ := hp
    simp only
    omega

/-- Witness for C2 (amended) at `totalPixels = 10` (chunk size `2`). -/
theorem c2_chunk_partition_covers_witness :
    ∃ l, chunk_indices 10 = some l ∧
      ((l.map (fun p => List.range' p.1 (p.2 - p.1))).flatten = List.range 10) ∧
      (∀ p ∈ l, p.2 - p.1 = chunk_size 10 ∨ p.2 = 10) :=
  c2_chunk_partition_covers 10 (by decide)

/-! ### Claim C10: tiny grids make the conversion fail -/

/-- **C10**: for `0 < totalPixels < 4` the chunk size
`min(1000, totalPixels // 4)` is `0` and chunk-index generation raises
(`range` with step 0), so no chunks are produced; for `totalPixels ≥ 4` the
chunk size is positive and a nonempty chunk list is produced. -/
theorem c10_min_total_pixels :
    (∀ t : Nat, 0 < t → t < 4 → chunk_size t = 0 ∧ chunk_indices t = none) ∧
    (∀ t : Nat, 4 ≤ t → 0 < chunk_size t ∧ ∃ l, chunk_indices t = some l ∧ l ≠ []) := by
  constructor
  · intro t h1 h2
    have hz : t / 4 = 0 := Nat.div_eq_of_lt (by omega)
    have hcs : chunk_size t = 0 := by
      unfold chunk_size
      omega
    refine ⟨hcs, ?_⟩
    unfold chunk_indices
    rw [if_pos hcs]
  · intro t ht
    have hcs : 0 < chunk_size t := chunk_size_pos ht
    refine ⟨hcs, ⟨(range_step 0 t (chunk_size t)).map
      (fun i => (i, min (i + chunk_size t) t)), ?_, ?_⟩⟩
    · unfold chunk_indices
      rw [if_neg (by omega)]
    · intro hnil
      rw [List.map_eq_nil_iff] at hnil
      rw [range_step_cons hcs (by omega : (0 : Nat) < t)] at hnil
      exact List.noConfusion hnil

/-- Witness for C10 at the concrete totals `2` (fails) and `8` (proceeds). -/
theorem c10_min_total_pixels_witness :
    (chunk_size 2 = 0 ∧ chunk_indices 2 = none) ∧
    (0 < chunk_size 8 ∧ ∃ l, chunk_indices 8 = some l ∧ l ≠ []) :=
  ⟨c10_min_total_pixels.1 2 (by decide) (by decide),
    c10_min_total_pixels.2 8 (by decide)⟩

/-! ### Claim C3: per-index failure handling in `process_chunk` -/

/-- **C3**: for a chunk `[start, stop)` over a reader whose failing indices are
exactly those with `F j = true` (and a coordinate list covering the chunk),
`ChunkedSpectrumProcessor.process_chunk` returns exactly the spectra of the
non-failing indices, once each, in their original relative order (so its
length is `N - |F|` where `N = stop - start`); failing indices are skipped,
not retried and not re-indexed. -/
theorem c3_process_chunk_skips_failures {α : Type} (read0 : Nat → α) (F : Nat → Bool)
    (coords : List (Nat × Nat × Nat)) (start stop : Nat)
    (hcov : stop ≤ coords.length) :
    process_chunk (fun j => if F j then none else some (read0 j)) coords start stop
      = ((List.range' start (stop - start)).filter (fun j => !F j)).map
          (fun j => (read0 j, coords.getD j (0, 0, 0)))
    ∧ (process_chunk (fun j => if F j then none else some (read0 j))
          coords start stop).length
      = (stop - start) - ((List.range' start (stop - start)).filter F).length := by
  have hmain :
      process_chunk (fun j => if F j then none else some (read0 j)) coords start stop
        = ((List.range' start (stop - start)).filter (fun j => !F j)).map
            (fun j => (read0 j, coords.getD j (0, 0, 0))) := by
    rw [process_chunk_eq_filterMap]
    rw [List.filterMap_congr
      (g := fun j => if F j then none else some (read0 j, coords.getD j (0, 0, 0))) ?_]
    · exact filterMap_ite_eq_filter_map F _ _
    · intro j hj
      have hjlt : j < coords.length := by
        rcases List.mem_range'_1.mp hj with ⟨h1, h2⟩
        omega
      unfold read_entry
      by_cases hF : F j
      · simp [hF]
      · have hget : coords[j]? = some coords[j] := List.getElem?_eq_getElem hjlt
        have hgetD : coords.getD j (0, 0, 0) = coords[j] := by
          rw [List.getD_eq_getElem?_getD, hget]
          rfl
        simp [hF, hget, hgetD]
  refine ⟨hmain, ?_⟩
  rw [hmain, List.length_map, length_filter_not]
  rw [List.length_range']

/-- Witness for C3: a 7-index chunk over the 3×3 grid with indices 2 and 5
failing. -/
theorem c3_process_chunk_skips_failures_witness :
    process_chunk (fun j => if (j == 2 || j == 5 : Bool) then none else some j)
        (coords_list 3 3) 0 7
      = ((List.range' 0 (7 - 0)).filter (fun j => !(j == 2 || j == 5 : Bool))).map
          (fun j => (j, (coords_list 3 3).getD j (0, 0, 0)))
    ∧ (process_chunk (fun j => if (j == 2 || j == 5 : Bool) then none else some j)
          (coords_list 3 3) 0 7).length
      = (7 - 0) - ((List.range' 0 (7 - 0)).filter (fun j => (j == 2 || j == 5 : Bool))).length :=
  c3_process_chunk_skips_failures (fun j => j) (fun j => (j == 2 || j == 5 : Bool))
    (coords_list 3 3) 0 7 (by decide)

/-! ### Lemmas about the parser loop -/

theorem upd_key_ok (p : String → Option ℚ) (key line : String) (o : Option ℚ)
    (hk : starts_with line key = true → (field6 p line).isSome = true) :
    upd_key p key line o = .ok (upd_pure p key line o) := by
  unfold upd_key upd_pure
  by_cases hm : starts_with line key = true
  · obtain ⟨v, hv⟩ := Option.isSome_iff_exists.mp (hk hm)
    simp [hm, hv]
  · simp [hm]

theorem upd_key_not_match (p : String → Option ℚ) (key line : String) (o : Option ℚ)
    (hm : starts_with line key = false) :
    upd_key p key line o = .ok o := by
  unfold upd_key
  simp [hm]

theorem proc_line_ok (p : String → Option ℚ) (st : CoordState) (line : String)
    (h1 : starts_with line "DesiXLength" = true → (field6 p line).isSome = true)
    (h2 : starts_with line "DesiXStep" = true → (field6 p line).isSome = true)
    (h3 : starts_with line "DesiYLength" = true → (field6 p line).isSome = true)
    (h4 : starts_with line "DesiYStep" = true → (field6 p line).isSome = true) :
    proc_line p st line
      = .ok ⟨upd_pure p "DesiXLength" line st.x, upd_pure p "DesiXStep" line st.xstep,
             upd_pure p "DesiYLength" line st.y, upd_pure p "DesiYStep" line st.ystep⟩ := by
  unfold proc_line
  rw [upd_key_ok p _ line st.x h1, upd_key_ok p _ line st.xstep h2,
    upd_key_ok p _ line st.y h3, upd_key_ok p _ line st.ystep h4]

theorem proc_line_x_eq (p : String → Option ℚ) (st : CoordState) (line : String)
    (st' : CoordState) (hm : starts_with line "DesiXLength" = false)
    (hok : proc_line p st line = .ok st') : st'.x = st.x := by
  unfold proc_line at hok
  rw [upd_key_not_match p _ line st.x hm] at hok
  rcases hu2 : upd_key p "DesiXStep" line st.xstep with e2 | v2
  · simp only [hu2] at hok
    exact Except.noConfusion hok
  simp only [hu2] at hok
  rcases hu3 : upd_key p "DesiYLength" line st.y with e3 | v3
  · simp only [hu3] at hok
    exact Except.noConfusion hok
  simp only [hu3] at hok
  rcases hu4 : upd_key p "DesiYStep" line st.ystep with e4 | v4
  · simp only [hu4] at hok
    exact Except.noConfusion hok
  simp only [hu4] at hok
  injection hok with h
  rw [← h]

theorem proc_line_xstep_eq (p : String → Option ℚ) (st : CoordState) (line : String)
    (st' : CoordState) (hm : starts_with line "DesiXStep" = false)
    (hok : proc_line p st line = .ok st') : st'.xstep = st.xstep := by
  unfold proc_line at hok
  rcases hu1 : upd_key p "DesiXLength" line st.x with e1 | v1
  · simp only [hu1] at hok
    exact Except.noConfusion hok
  simp only [hu1] at hok
  rw [upd_key_not_match p _ line st.xstep hm] at hok
  rcases hu3 : upd_key p "DesiYLength" line st.y with e3 | v3
  · simp only [hu3] at hok
    exact Except.noConfusion hok
  simp only [hu3] at hok
  rcases hu4 : upd_key p "DesiYStep" line st.ystep with e4 | v4
  · simp only [hu4] at hok
    exact Except.noConfusion hok
  simp only [hu4] at hok
  injection hok with h
  rw [← h]

theorem proc_line_y_eq (p : String → Option ℚ) (st : CoordState) (line : String)
    (st' : CoordState) (hm : starts_with line "DesiYLength" = false)
    (hok : proc_line p st line = .ok st') : st'.y = st.y := by
  unfold proc_line at hok
  rcases hu1 : upd_key p "DesiXLength" line st.x with e1 | v1
  · simp only [hu1] at hok
    exact Except.noConfusion hok
  simp only [hu1] at hok
  rcases hu2 : upd_key p "DesiXStep" line st.xstep with e2 | v2
  · simp only [hu2] at hok
    exact Except.noConfusion hok
  simp only [hu2] at hok
  rw [upd_key_not_match p _ line st.y hm] at hok
  rcases hu4 : upd_key p "DesiYStep" line st.ystep with e4 | v4
  · simp only [hu4] at hok
    exact Except.noConfusion hok
  simp only [hu4] at hok
  injection hok with h
  rw [← h]

theorem proc_line_ystep_eq (p : String → Option ℚ) (st : CoordState) (line : String)
    (st' : CoordState) (hm : starts_with line "DesiYStep" = false)
    (hok : proc_line p st line = .ok st') : st'.ystep = st.ystep := by
  unfold proc_line at hok
  rcases hu1 : upd_key p "DesiXLength" line st.x with e1 | v1
  · simp only [hu1] at hok
    exact Except.noConfusion hok
  simp only [hu1] at hok
  rcases hu2 : upd_key p "DesiXStep" line st.xstep with e2 | v2
  · simp only [hu2] at hok
    exact Except.noConfusion hok
  simp only [hu2] at hok
  rcases hu3 : upd_key p "DesiYLength" line st.y with e3 | v3
  · simp only [hu3] at hok
    exact Except.noConfusion hok
  simp only [hu3] at hok
  rw [upd_key_not_match p _ line st.ystep hm] at hok
  injection hok with h
  rw [← h]

theorem run_lines_sel (p : String → Option ℚ) (key : String)
    (sel : CoordState → Option ℚ)
    (hsel : ∀ st line st', starts_with line key = false →
      proc_line p st line = .ok st' → sel st' = sel st) :
    ∀ lines st0 st', (∀ l ∈ lines, starts_with l key = false) →
      run_lines p st0 lines = .ok st' → sel st' = sel st0 := by
  intro lines
  induction lines with
  | nil =>
    intro st0 st' _ h
    unfold run_lines at h
    injection h with h
    rw [h]
  | cons l rest ih =>
    intro st0 st' hall h
    unfold run_lines at h
    rcases hpl : proc_line p st0 l with e | st1
    · simp only [hpl] at h
      exact Except.noConfusion h
    · simp only [hpl] at h
      have h1 := ih st1 st' (fun x hx => hall x (List.mem_cons_of_mem _ hx)) h
      rw [h1, hsel st0 l st1 (hall l (List.mem_cons_self _ _)) hpl]

theorem upd_all_cons (p : String → Option ℚ) (key l : String) (rest : List String)
    (o : Option ℚ) :
    upd_all p key (l :: rest) o = upd_all p key rest (upd_pure p key l o) := by
  unfold upd_all last_key_line upd_pure
  by_cases hm : starts_with l key = true
  · have hfc : List.filter (fun s => starts_with s key) (l :: rest)
        = l :: List.filter (fun s => starts_with s key) rest := by
      simp [List.filter_cons, hm]
    rw [hfc]
    rcases hfr : List.filter (fun s => starts_with s key) rest with _ | ⟨a, t⟩
    · simp [hm]
    · rw [List.getLast?_cons_cons]
      rcases hgl : (a :: t).getLast? with _ | g
      · rw [List.getLast?_eq_none_iff] at hgl
        exact List.noConfusion hgl
      · rfl
  · have hm' : starts_with l key = false := by
      simpa using hm
    have hfc : List.filter (fun s => starts_with s key) (l :: rest)
        = List.filter (fun s => starts_with s key) rest := by
      simp [List.filter_cons, hm']
    rw [hfc]
    rcases List.filter (fun s => starts_with s key) rest with _ | ⟨a, t⟩
    · simp [hm']
    · rfl

theorem run_lines_ok (p : String → Option ℚ) :
    ∀ (lines : List String) (st0 : CoordState),
      (∀ l ∈ lines, is_key_line l = true → (field6 p l).isSome = true) →
      run_lines p st0 lines
        = .ok ⟨upd_all p "DesiXLength" lines st0.x, upd_all p "DesiXStep" lines st0.xstep,
               upd_all p "DesiYLength" lines st0.y, upd_all p "DesiYStep" lines st0.ystep⟩ := by
  intro lines
  induction lines with
  | nil =>
    intro st0 _
    rfl
  | cons l rest ih =>
    intro st0 hparse
    have h1 : starts_with l "DesiXLength" = true → (field6 p l).isSome = true := by
      intro hm
      exact hparse l (List.mem_cons_self _ _) (by simp [is_key_line, hm])
    have h2 : starts_with l "DesiXStep" = true → (field6 p l).isSome = true := by
      intro hm
      exact hparse l (List.mem_cons_self _ _) (by simp [is_key_line, hm])
    have h3 : starts_with l "DesiYLength" = true → (field6 p l).isSome = true := by
      intro hm
      exact hparse l (List.mem_cons_self _ _) (by simp [is_key_line, hm])
    have h4 : starts_with l "DesiYStep" = true → (field6 p l).isSome = true := by
      intro hm
      exact hparse l (List.mem_cons_self _ _) (by simp [is_key_line, hm])
    have hstep : run_lines p st0 (l :: rest)
        = match proc_line p st0 l with
          | Except.error e => Except.error e
          | Except.ok st' => run_lines p st' rest := rfl
    rw [hstep, proc_line_ok p st0 l h1 h2 h3 h4]
    show run_lines p
      ⟨upd_pure p "DesiXLength" l st0.x, upd_pure p "DesiXStep" l st0.xstep,
       upd_pure p "DesiYLength" l st0.y, upd_pure p "DesiYStep" l st0.ystep⟩ rest = _
    rw [ih _ (fun x hx hk => hparse x (List.mem_cons_of_mem _ hx) hk)]
    simp only [upd_all_cons]

theorem upd_all_none (p : String → Option ℚ) (key : String) (lines : List String) :
    upd_all p key lines none = key_val p key lines := by
  unfold upd_all key_val
  rcases last_key_line key lines with _ | l
  · rfl
  · rfl

theorem last_key_line_none (key : String) (lines : List String)
    (h : ∀ l ∈ lines, starts_with l key = false) :
    last_key_line key lines = none := by
  unfold last_key_line
  have hnil : List.filter (fun l => starts_with l key) lines = [] := by
    rw [List.filter_eq_nil_iff]
    intro a ha
    simp [h a ha]
  rw [hnil]
  rfl

theorem compute_coords_error_of_none (st : CoordState)
    (h : st.x = none ∨ st.xstep = none ∨ st.y = none ∨ st.ystep = none) :
    ∃ e, compute_coords st = .error e := by
  rcases st with ⟨ox, oxs, oy, oys⟩
  simp only at h
  rcases ox with _ | xv
  · exact ⟨.missing_field, rfl⟩
  rcases oxs with _ | xsv
  · exact ⟨.missing_field, rfl⟩
  by_cases h0 : xsv = 0
  · exact ⟨.div_by_zero, by simp [compute_coords, h0]⟩
  rcases oy with _ | yv
  · exact ⟨.missing_field, by simp [compute_coords, h0]⟩
  rcases oys with _ | ysv
  · exact ⟨.missing_field, by simp [compute_coords, h0]⟩
  · simp at h

/-- When some variable is unset, the (only) error of the final computation is
the missing-field one, provided no zero `xstep` value is read before the
unset variable is reached: the `x` and `xstep` `NameError`s precede the
x-axis division, and the `y` and `ystep` `NameError`s precede the y-axis
division. -/
theorem compute_coords_missing (st : CoordState)
    (h : st.x = none ∨ st.xstep = none ∨ st.y = none ∨ st.ystep = none)
    (hxs : ∀ v, st.xstep = some v → v ≠ 0) :
    compute_coords st = .error .missing_field := by
  rcases st with ⟨ox, oxs, oy, oys⟩
  simp only at h hxs
  rcases ox with _ | xv
  · rfl
  rcases oxs with _ | xsv
  · rfl
  have h0 : xsv ≠ 0 := hxs xsv rfl
  rcases oy with _ | yv
  · simp [compute_coords, h0]
  rcases oys with _ | ysv
  · simp [compute_coords, h0]
  · simp at h

/-- Successful evaluation of `get_coords`: if every matching line parses, all
four keys occur, and both (last) step values are nonzero, the result is the
pair of rounded ratios of the values on the last matching lines. -/
theorem get_coords_eval (p : String → Option ℚ) (lines : List String)
    (xv xsv yv ysv : ℚ)
    (hparse : ∀ l ∈ lines, is_key_line l = true → (field6 p l).isSome = true)
    (hx : key_val p "DesiXLength" lines = some xv)
    (hxs : key_val p "DesiXStep" lines = some xsv)
    (hy : key_val p "DesiYLength" lines = some yv)
    (hys : key_val p "DesiYStep" lines = some ysv)
    (hxs0 : xsv ≠ 0) (hys0 : ysv ≠ 0) :
    get_coords p lines = .ok (py_round (xv / xsv), py_round (yv / ysv)) := by
  unfold get_coords
  rw [run_lines_ok p lines ⟨none, none, none, none⟩ hparse]
  show compute_coords
      ⟨upd_all p "DesiXLength" lines none, upd_all p "DesiXStep" lines none,
       upd_all p "DesiYLength" lines none, upd_all p "DesiYStep" lines none⟩ = _
  rw [upd_all_none, upd_all_none, upd_all_none, upd_all_none, hx, hxs, hy, hys]
  simp [compute_coords, hxs0, hys0]

/-! ### Claim C4: the parsed dimensions are the rounded ratios -/

/-- **C4 counterexample**: the claim only requires the four 6th fields to be
numeric, but the numeric value `0` for `DesiXStep` makes `x / xstep` raise
`ZeroDivisionError`, so `get_coords` fails instead of returning the rounded
ratios. -/
theorem c4_counterexample :
    get_coords demo_parse demo_lines_zero_step = .error CoordErr.div_by_zero ∧
    Except.error CoordErr.div_by_zero
      ≠ Except.ok (py_round ((10 : ℚ) / 0), py_round ((10 : ℚ) / 2)) := by
  constructor
  · decide
  · decide

/-- **C4 (amended)**: for every metadata file containing lines starting with
each of the four keys, whose matching lines all have a numeric 6th
tab-delimited field, and whose (last) `DesiXStep` and `DesiYStep` values are
nonzero, `get_coords` returns exactly
`(round(DesiXLength/DesiXStep), round(DesiYLength/DesiYStep))`, the values
taken from the last matching line of each key. -/
theorem c4_get_coords_rounded_ratio (p : String → Option ℚ) (lines : List String)
    (xv xsv yv ysv : ℚ)
    (hparse : ∀ l ∈ lines, is_key_line l = true → (field6 p l).isSome = true)
    (hx : key_val p "DesiXLength" lines = some xv)
    (hxs : key_val p "DesiXStep" lines = some xsv)
    (hy : key_val p "DesiYLength" lines = some yv)
    (hys : key_val p "DesiYStep" lines = some ysv)
    (hxs0 : xsv ≠ 0) (hys0 : ysv ≠ 0) :
    get_coords p lines = .ok (py_round (xv / xsv), py_round (yv / ysv)) :=
  get_coords_eval p lines xv xsv yv ysv hparse hx hxs hy hys hxs0 hys0

/-- Witness for C4 (amended) on a concrete file: lengths 10/10, steps 2/3. -/
theorem c4_get_coords_rounded_ratio_witness :
    get_coords demo_parse demo_lines
      = .ok (py_round ((10 : ℚ) / 2), py_round ((10 : ℚ) / 3)) :=
  c4_get_coords_rounded_ratio demo_parse demo_lines 10 2 10 3
    (by decide) (by decide) (by decide) (by decide) (by decide)
    (by decide) (by decide)

/-! ### Claim C5: a missing key is fatal -/

/-- **C5 counterexample**: the file with no `DesiYStep` line but a
`DesiXStep` value of `0` has one of the four keys absent, yet `get_coords`
fails with `ZeroDivisionError` (raised by `round(x / xstep)` on line 213
before `ystep` is ever read), not with the missing-field error. -/
theorem c5_counterexample :
    get_coords demo_parse demo_lines_missing_ystep = .error CoordErr.div_by_zero ∧
    (Except.error CoordErr.div_by_zero : Except CoordErr (ℤ × ℤ))
      ≠ Except.error CoordErr.missing_field := by
  constructor
  · decide
  · decide

/-- **C5 (amended)**: for every metadata file in which at least one of the
four keys is absent, `get_coords` fails — with some raised error — rather
than returning a result; and the failure is precisely the missing-field error
(`NameError` on the unset variable) whenever no earlier error intervenes,
i.e. whenever every matching line's 6th tab-delimited field parses and the
(last) `DesiXStep` value, if any, is nonzero. -/
theorem c5_missing_key_fails (p : String → Option ℚ) (lines : List String)
    (habs : (∀ l ∈ lines, starts_with l "DesiXLength" = false) ∨
            (∀ l ∈ lines, starts_with l "DesiXStep" = false) ∨
            (∀ l ∈ lines, starts_with l "DesiYLength" = false) ∨
            (∀ l ∈ lines, starts_with l "DesiYStep" = false)) :
    (∃ e, get_coords p lines = .error e) ∧
    ((∀ l ∈ lines, is_key_line l = true → (field6 p l).isSome = true) →
      key_val p "DesiXStep" lines ≠ some 0 →
      get_coords p lines = .error .missing_field) := by
  constructor
  · rcases hrun : run_lines p ⟨none, none, none, none⟩ lines with e | st
    · refine ⟨e, ?_⟩
      unfold get_coords
      rw [hrun]
    · have hnone : st.x = none ∨ st.xstep = none ∨ st.y = none ∨ st.ystep = none := by
        rcases habs with h | h | h | h
        · exact Or.inl (run_lines_sel p "DesiXLength" (fun s => s.x)
            (fun st line st' hm hok => proc_line_x_eq p st line st' hm hok)
            lines ⟨none, none, none, none⟩ st h hrun)
        · exact Or.inr (Or.inl (run_lines_sel p "DesiXStep" (fun s => s.xstep)
            (fun st line st' hm hok => proc_line_xstep_eq p st line st' hm hok)
            lines ⟨none, none, none, none⟩ st h hrun))
        · exact Or.inr (Or.inr (Or.inl (run_lines_sel p "DesiYLength" (fun s => s.y)
            (fun st line st' hm hok => proc_line_y_eq p st line st' hm hok)
            lines ⟨none, none, none, none⟩ st h hrun)))
        · exact Or.inr (Or.inr (Or.inr (run_lines_sel p "DesiYStep" (fun s => s.ystep)
            (fun st line st' hm hok => proc_line_ystep_eq p st line st' hm hok)
            lines ⟨none, none, none, none⟩ st h hrun)))
      obtain ⟨e, he⟩ := compute_coords_error_of_none st hnone
      refine ⟨e, ?_⟩
      unfold get_coords
      rw [hrun]
      exact he
  · intro hparse hxs0
    unfold get_coords
    rw [run_lines_ok p lines ⟨none, none, none, none⟩ hparse]
    show compute_coords
        ⟨upd_all p "DesiXLength" lines none, upd_all p "DesiXStep" lines none,
         upd_all p "DesiYLength" lines none, upd_all p "DesiYStep" lines none⟩ = _
    apply compute_coords_missing
    · rcases habs with h | h | h | h
      · refine Or.inl ?_
        show upd_all p "DesiXLength" lines none = none
        unfold upd_all
        rw [last_key_line_none _ _ h]
      · refine Or.inr (Or.inl ?_)
        show upd_all p "DesiXStep" lines none = none
        unfold upd_all
        rw [last_key_line_none _ _ h]
      · refine Or.inr (Or.inr (Or.inl ?_))
        show upd_all p "DesiYLength" lines none = none
        unfold upd_all
        rw [last_key_line_none _ _ h]
      · refine Or.inr (Or.inr (Or.inr ?_))
        show upd_all p "DesiYStep" lines none = none
        unfold upd_all
        rw [last_key_line_none _ _ h]
    · intro v hv h0
      apply hxs0
      show key_val p "DesiXStep" lines = some 0
      rw [← upd_all_none p "DesiXStep" lines]
      rw [← h0]
      exact hv

/-- Witness for C5 (amended) on a concrete file with no `DesiXLength` line,
all fields parseable and a nonzero `DesiXStep`: the run both fails and fails
with exactly the missing-field error. -/
theorem c5_missing_key_fails_witness :
    (∃ e, get_coords demo_parse demo_lines_missing = .error e) ∧
    get_coords demo_parse demo_lines_missing = .error CoordErr.missing_field :=
  ⟨(c5_missing_key_fails demo_parse demo_lines_missing (Or.inl (by decide))).1,
   (c5_missing_key_fails demo_parse demo_lines_missing (Or.inl (by decide))).2
     (by decide) (by decide)⟩

/-! ### Claim C9: positivity of the parsed dimensions -/

theorem py_round_pos {q : ℚ} (hq : 1 / 2 < q) : 0 < py_round q := by
  have hfl0 : (0 : ℤ) ≤ ⌊q⌋ := by
    rw [Int.le_floor]
    push_cast
    linarith
  unfold py_round
  by_cases h1 : q - ⌊q⌋ < 1 / 2
  · rw [if_pos h1]
    have hne : ⌊q⌋ ≠ 0 := by
      intro h
      rw [h] at h1
      push_cast at h1
      linarith
    omega
  · rw [if_neg h1]
    by_cases h2 : 1 / 2 < q - ⌊q⌋
    · rw [if_pos h2]
      omega
    · rw [if_neg h2]
      have h1' : (1 : ℚ) / 2 ≤ q - ⌊q⌋ := not_lt.mp h1
      have h2' : q - ⌊q⌋ ≤ 1 / 2 := not_lt.mp h2
      have hpos : (0 : ℚ) < (⌊q⌋ : ℚ) := by linarith
      have hzf : 0 < ⌊q⌋ := by exact_mod_cast hpos
      by_cases h3 : ⌊q⌋ % 2 = 0
      · rw [if_pos h3]
        omega
      · rw [if_neg h3]
        omega

/-- **C9 counterexample**: the file with `DesiXLength = 1` and
`DesiXStep = 3` is accepted by the parser (all four keys present, all fields
numeric), yet the returned width is `round(1/3) = 0`, which is not
positive. -/
theorem c9_counterexample :
    get_coords demo_parse demo_lines_small_ratio = .ok (0, 5) ∧ ¬ (0 < (0 : ℤ)) := by
  constructor
  · have h := get_coords_eval demo_parse demo_lines_small_ratio 1 3 10 2
      (by decide) (by decide) (by decide) (by decide) (by decide)
      (by decide) (by decide)
    rw [h]
    have h1 : py_round ((1 : ℚ) / 3) = 0 := by
      have hf : ⌊(1 : ℚ) / 3⌋ = 0 := by
        rw [Int.floor_eq_iff] <;> norm_num
      unfold py_round
      rw [hf]
      norm_num
    have h2 : py_round ((10 : ℚ) / 2) = 5 := by
      norm_num [py_round]
    rw [h1, h2]
  · decide

/-- **C9 (amended)**: for every metadata file accepted by the parser whose
two length/step ratios each exceed `1/2`, the returned `(width, height)` pair
consists of positive integers.  (In general the parser only guarantees
integers: a ratio of at most `1/2` rounds to zero or below.) -/
theorem c9_dimensions_positive (p : String → Option ℚ) (lines : List String)
    (xv xsv yv ysv : ℚ)
    (hparse : ∀ l ∈ lines, is_key_line l = true → (field6 p l).isSome = true)
    (hx : key_val p "DesiXLength" lines = some xv)
    (hxs : key_val p "DesiXStep" lines = some xsv)
    (hy : key_val p "DesiYLength" lines = some yv)
    (hys : key_val p "DesiYStep" lines = some ysv)
    (hxr : 1 / 2 < xv / xsv) (hyr : 1 / 2 < yv / ysv) :
    ∃ w h : ℤ, get_coords p lines = .ok (w, h) ∧ 0 < w ∧ 0 < h := by
  have hxs0 : xsv ≠ 0 := by
    intro h
    rw [h, div_zero] at hxr
    norm_num at hxr
  have hys0 : ysv ≠ 0 := by
    intro h
    rw [h, div_zero] at hyr
    norm_num at hyr
  exact ⟨_, _, get_coords_eval p lines xv xsv yv ysv hparse hx hxs hy hys hxs0 hys0,
    py_round_pos hxr, py_round_pos hyr⟩

/-- Witness for C9 (amended) on the concrete file with ratios 5 and 10/3. -/
theorem c9_dimensions_positive_witness :
    ∃ w h : ℤ, get_coords demo_parse demo_lines = .ok (w, h) ∧ 0 < w ∧ 0 < h :=
  c9_dimensions_positive demo_parse demo_lines 10 2 10 3
    (by decide) (by decide) (by decide) (by decide) (by decide)
    (by norm_num) (by norm_num)

/-! ### Memory-oracle independence lemmas -/

theorem process_chunk_mem_eq {α : Type} (mem : Nat → Bool) (read : Nat → Option α)
    (coords : List (Nat × Nat × Nat)) (start stop : Nat) :
    process_chunk_mem mem read coords start stop = process_chunk read coords start stop := by
  unfold process_chunk_mem process_chunk
  refine congrArg _ (funext fun i => ?_)
  cases mem i
  · rfl
  · rfl

theorem extract_loop_oracle {α : Type} (mem1 mem_w1 mem2 mem_w2 : Nat → Bool)
    (batch_fail : Nat → Bool) (read : Nat → Option α)
    (coords : List (Nat × Nat × Nat)) :
    ∀ (bs : List (List (Nat × Nat))) (bi : Nat) (acc : List (α × (Nat × Nat × Nat))),
      extract_loop mem1 mem_w1 batch_fail read coords bs bi acc
        = extract_loop mem2 mem_w2 batch_fail read coords bs bi acc := by
  intro bs
  induction bs with
  | nil =>
    intro bi acc
    rfl
  | cons b rest ih =>
    intro bi acc
    have e1 : (if mem1 bi then acc else force_garbage_collection acc) = acc := by
      cases mem1 bi
      · rfl
      · rfl
    have e2 : (if mem2 bi then acc else force_garbage_collection acc) = acc := by
      cases mem2 bi
      · rfl
      · rfl
    have hw1 : (fun c : Nat × Nat => process_chunk_mem mem_w1 read coords c.1 c.2)
        = (fun c : Nat × Nat => process_chunk read coords c.1 c.2) :=
      funext fun c => process_chunk_mem_eq mem_w1 read coords c.1 c.2
    have hw2 : (fun c : Nat × Nat => process_chunk_mem mem_w2 read coords c.1 c.2)
        = (fun c : Nat × Nat => process_chunk read coords c.1 c.2) :=
      funext fun c => process_chunk_mem_eq mem_w2 read coords c.1 c.2
    show (if batch_fail bi
        then ((if mem1 bi then acc else force_garbage_collection acc), false)
        else extract_loop mem1 mem_w1 batch_fail read coords rest (bi + 1)
          ((if mem1 bi then acc else force_garbage_collection acc)
            ++ (b.map (fun c => process_chunk_mem mem_w1 read coords c.1 c.2)).flatten))
      = (if batch_fail bi
        then ((if mem2 bi then acc else force_garbage_collection acc), false)
        else extract_loop mem2 mem_w2 batch_fail read coords rest (bi + 1)
          ((if mem2 bi then acc else force_garbage_collection acc)
            ++ (b.map (fun c => process_chunk_mem mem_w2 read coords c.1 c.2)).flatten))
    rw [e1, e2, hw1, hw2]
    cases batch_fail bi
    · exact ih (bi + 1) _
    · rfl

theorem convert_loop_oracle {α : Type} (mem1 mem2 write_fail : Nat → Bool) :
    ∀ (bs : List (List (α × (Nat × Nat × Nat)))) (bi : Nat)
      (acc : List (α × (Nat × Nat × Nat))),
      convert_loop mem1 write_fail bs bi acc = convert_loop mem2 write_fail bs bi acc := by
  intro bs
  induction bs with
  | nil =>
    intro bi acc
    rfl
  | cons b rest ih =>
    intro bi acc
    have e1 : (if mem1 bi then acc else force_garbage_collection acc) = acc := by
      cases mem1 bi
      · rfl
      · rfl
    have e2 : (if mem2 bi then acc else force_garbage_collection acc) = acc := by
      cases mem2 bi
      · rfl
      · rfl
    show (if write_fail bi
        then ((if mem1 bi then acc else force_garbage_collection acc), false)
        else convert_loop mem1 write_fail rest (bi + 1)
          ((if mem1 bi then acc else force_garbage_collection acc) ++ b))
      = (if write_fail bi
        then ((if mem2 bi then acc else force_garbage_collection acc), false)
        else convert_loop mem2 write_fail rest (bi + 1)
          ((if mem2 bi then acc else force_garbage_collection acc) ++ b))
    rw [e1, e2]
    cases write_fail bi
    · exact ih (bi + 1) _
    · rfl

/-! ### Claim C6: the pipeline's output is independent of the memory monitor -/

/-- **C6**: for the same input dataset and the same injected failures, two
runs with arbitrary (different) `check_memory` behaviours — e.g. one in which
low memory is reported and reclamation triggered at every check, one in which
it never triggers — produce identical outcomes: the same spectra written to
the imzML writer, with the same coordinates, in the same order (and even the
same residual state and completion flag). -/
theorem c6_memory_monitor_independent {α : Type} (read : Nat → Option α) (x y : Nat)
    (batch_fail write_fail : Nat → Bool) (mem1 mem_w1 mem2 mem_w2 : Nat → Bool) :
    mzmlb_conv read x y mem1 mem_w1 batch_fail write_fail
      = mzmlb_conv read x y mem2 mem_w2 batch_fail write_fail := by
  unfold mzmlb_conv
  rcases chunk_indices (x * y) with _ | chunks
  · rfl
  · simp only
    rw [extract_loop_oracle mem1 mem_w1 mem2 mem_w2 batch_fail read (coords_list x y)
      (batch_list 2 chunks) 0 []]
    rcases (extract_loop mem2 mem_w2 batch_fail read (coords_list x y)
      (batch_list 2 chunks) 0 []).2 with _ | _
    · rfl
    · simp only [if_true]
      rw [convert_loop_oracle mem1 mem2 write_fail]

/-! ### Claim C8: release of the accumulated spectrum sequence -/

theorem extract_loop_ok_of_no_fail {α : Type} (mem mem_w : Nat → Bool)
    (batch_fail : Nat → Bool) (read : Nat → Option α)
    (coords : List (Nat × Nat × Nat)) (hbf : ∀ i, batch_fail i = false) :
    ∀ (bs : List (List (Nat × Nat))) (bi : Nat) (acc : List (α × (Nat × Nat × Nat))),
      (extract_loop mem mem_w batch_fail read coords bs bi acc).2 = true := by
  intro bs
  induction bs with
  | nil =>
    intro bi acc
    rfl
  | cons b rest ih =>
    intro bi acc
    show (if batch_fail bi then (_, false)
        else extract_loop mem mem_w batch_fail read coords rest (bi + 1) _).2 = true
    rw [hbf bi]
    simp only [Bool.false_eq_true, if_false]
    exact ih (bi + 1) _

/-- **C8 counterexample**: on a 3×3 grid whose second chunk batch fails in the
parallel extraction phase, the error propagates out of `__init__` before
`_convert_to_imzml` (whose `finally` holds the only `self.spectra.clear()`)
ever runs: the conversion ends with the accumulated spectra of the first
batch still in `self.spectra`. -/
theorem c8_counterexample :
    (mzmlb_conv (fun j => some j) 3 3 (fun _ => true) (fun _ => true)
        (fun b => b == 1) (fun _ => false)).spectra_after ≠ [] ∧
    (mzmlb_conv (fun j => some j) 3 3 (fun _ => true) (fun _ => true)
        (fun b => b == 1) (fun _ => false)).ok = false := by
  constructor
  · decide
  · decide

/-- **C8 (amended)**: whenever the parallel extraction phase itself does not
fail, `self.spectra` is emptied by the time the conversion ends — on normal
completion and also when the imzML writing phase fails (its `finally` clause
clears the list); but a failure during profile-spectra creation propagates
without the clear ever running, leaving the accumulated sequence in place
(it is then reclaimed only implicitly, with the abandoned object). -/
theorem c8_spectra_cleared {α : Type} (read : Nat → Option α) (x y : Nat)
    (mem mem_w write_fail : Nat → Bool) (batch_fail : Nat → Bool)
    (hbf : ∀ i, batch_fail i = false) :
    (mzmlb_conv read x y mem mem_w batch_fail write_fail).spectra_after = [] := by
  unfold mzmlb_conv
  rcases chunk_indices (x * y) with _ | chunks
  · rfl
  · simp only
    rw [extract_loop_ok_of_no_fail mem mem_w batch_fail read (coords_list x y) hbf
      (batch_list 2 chunks) 0 []]
    simp only [if_true]

/-- Witness for C8 (amended): a complete 3×3 run (no injected failures) ends
with `self.spectra` empty. -/
theorem c8_spectra_cleared_witness :
    (mzmlb_conv (fun j => some j) 3 3 (fun _ => true) (fun _ => true)
        (fun _ => false) (fun _ => false)).spectra_after = [] :=
  c8_spectra_cleared (fun j => some j) 3 3 (fun _ => true) (fun _ => true)
    (fun _ => false) (fun _ => false) (fun _ => rfl)

/-! ### Claim C7: glob-based file resolution -/

/-- **C7 counterexample**: with two candidate matches the lookup does not
fail: `list(glob(...))[0]` silently picks the first candidate and the driver
proceeds with it. -/
theorem c7_counterexample :
    first_match ["a_1_x.mzMLb", "b_1_y.mzMLb"] = some "a_1_x.mzMLb" ∧
    first_match ["a_1_x.mzMLb", "b_1_y.mzMLb"] ≠ none := by
  constructor
  · rfl
  · intro h
    exact Option.noConfusion h

/-- **C7 (amended)**: if zero candidate files match a lookup pattern the
driver fails with an unhandled `IndexError`; if one or more match, it
silently proceeds with the first candidate (multiple matches are not
detected). -/
theorem c7_glob_resolution :
    (first_match ([] : List String) = none) ∧
    (∀ (f : String) (rest : List String), first_match (f :: rest) = some f) :=
  ⟨rfl, fun f rest => rfl⟩
